import Mathlib

/-!
Verification of the Iron Dillo Cybersandbox RAG engine
(`iron_dillo_cybersandbox_ai/backend/rag.py`) against its specification.

Strings are modelled as `List Char`, Python floats as `ℚ` (exact field
arithmetic), Python ints as `Int` (or `Nat` where the source value is
known nonnegative).  The Python `while` loop of `_chunk_text` is modelled
with explicit fuel, so that both termination and non-termination facts
are provable.
-/

namespace IronDillo

/-! ## Text chunker (`_chunk_text`, fixed mode) -/

/-- The `while start < text_length` loop of `_chunk_text` in fixed mode,
with explicit fuel.  Each iteration emits `text[start:end]` with
`end = min(start + chunk_size, text_length)`, stops when `end` reaches the
end of the text, and otherwise continues from `max(0, end - overlap)`
(which is exactly truncated subtraction on `Nat`).  `none` means the fuel
ran out before the loop finished. -/
def chunkLoop (text : List Char) (chunkSize overlap : Nat) :
    Nat → Nat → Option (List (List Char))
  | 0, _ => none
  | fuel + 1, start =>
    if start < text.length then
      let e := min (start + chunkSize) text.length
      let c := (text.drop start).take (e - start)
      if e = text.length then
        some [c]
      else
        match chunkLoop text chunkSize overlap fuel (e - overlap) with
        | none => none
        | some rest => some (c :: rest)
    else
      some []

/-- Model of `_chunk_text(text, chunk_size, overlap, chunk_mode="fixed")`:
the fixed-mode branch, run with enough fuel for every terminating case. -/
def chunk_text_fixed (text : List Char) (chunkSize overlap : Nat) :
    Option (List (List Char)) :=
  chunkLoop text chunkSize overlap (text.length + 1) 0

/-- Invariant of the fixed-mode chunking loop for `overlap < chunk_size`:
from any in-range `start` with enough fuel the loop terminates, the head
chunk has the expected window length, gluing the chunks (head unchanged,
each later chunk with its `overlap`-char duplicated prefix removed)
rebuilds `text.drop start`, and the last chunk is a final segment of the
text. -/
theorem chunkLoop_spec (text : List Char) (chunkSize overlap : Nat)
    (hov : overlap < chunkSize) :
    ∀ fuel start, start < text.length → text.length - start < fuel →
    ∃ c rest, chunkLoop text chunkSize overlap fuel start = some (c :: rest) ∧
      c.length = min (start + chunkSize) text.length - start ∧
      c ++ (rest.map (List.drop overlap)).flatten = text.drop start ∧
      ∃ s, s < text.length ∧ (c :: rest).getLastD [] = text.drop s := by
  intro fuel
  induction fuel with
  | zero => intro start _ h2; omega
  | succ fuel ih =>
    intro start h1 h2
    by_cases he : min (start + chunkSize) text.length = text.length
    · -- final window: the chunk reaches the end of the text
      have htake : (text.drop start).take (min (start + chunkSize) text.length - start) =
          text.drop start := by
        rw [he]
        exact List.take_of_length_le (by simp [List.length_drop])
      refine ⟨(text.drop start).take (min (start + chunkSize) text.length - start),
        [], ?_, ?_, ?_, start, h1, ?_⟩
      · simp only [chunkLoop, if_pos h1, if_pos he]
      · simp [List.length_take, List.length_drop]
        omega
      · simp [htake]
      · simp [htake]
    · -- interior window: recurse from `e - overlap`
      have hmin : min (start + chunkSize) text.length = start + chunkSize := by omega
      have hstep : start + chunkSize < text.length := by omega
      set start' := start + chunkSize - overlap with hstart'
      have hs1 : start' < text.length := by omega
      have hs2 : text.length - start' < fuel := by omega
      obtain ⟨c', rest', heq, hclen, hcat, s, hs, hlast⟩ := ih start' hs1 hs2
      have hrec : chunkLoop text chunkSize overlap (fuel + 1) start =
          some ((text.drop start).take chunkSize :: c' :: rest') := by
        have hne2 : ¬ (start + chunkSize = text.length) := by omega
        simp only [chunkLoop, if_pos h1, hmin, if_neg hne2, Nat.add_sub_cancel_left,
          ← hstart', heq]
      refine ⟨(text.drop start).take chunkSize, c' :: rest', hrec, ?_, ?_, s, hs, ?_⟩
      · simp [List.length_take, List.length_drop]
        omega
      · -- glue: c ++ drop overlap c' ++ rest = text.drop start
        have hc'len : overlap ≤ c'.length := by
          rw [hclen]
          omega
        have h1' : ((c' :: rest').map (List.drop overlap)).flatten =
            List.drop overlap (c' ++ (rest'.map (List.drop overlap)).flatten) := by
          simp [List.drop_append_of_le_length hc'len]
        rw [h1', hcat]
        have h2' : List.drop overlap (text.drop start') =
            text.drop (start + chunkSize) := by
          rw [List.drop_drop]
          congr 1
          omega
        rw [h2']
        have h3' : text.drop (start + chunkSize) = (text.drop start).drop chunkSize := by
          rw [List.drop_drop]
        rw [h3', List.take_append_drop]
      · simpa [List.getLastD_cons] using hlast

/-- C1: for non-empty text, `chunk_size ≥ 1` and `overlap < chunk_size`,
fixed-mode chunking terminates and produces a non-empty chunk list whose
concatenation, after removing the `overlap`-long duplicated prefix of
every chunk after the first, is exactly the original text, and whose last
chunk is a final segment of the text (it ends at the text's last
character). -/
theorem chunk_coverage (text : List Char) (chunkSize overlap : Nat)
    (hne : text ≠ []) (hcs : 1 ≤ chunkSize) (hov : overlap < chunkSize) :
    ∃ c rest, chunk_text_fixed text chunkSize overlap = some (c :: rest) ∧
      c ++ (rest.map (List.drop overlap)).flatten = text ∧
      ∃ s, s < text.length ∧ (c :: rest).getLastD [] = text.drop s := by
  have h1 : 0 < text.length := List.length_pos.mpr hne
  obtain ⟨c, rest, heq, _, hcat, hlast⟩ :=
    chunkLoop_spec text chunkSize overlap hov (text.length + 1) 0 h1 (by omega)
  exact ⟨c, rest, heq, by simpa using hcat, hlast⟩

/-- Witness for C1 at `text = "abcde"`, `chunk_size = 2`, `overlap = 1`. -/
theorem chunk_coverage_witness :
    ∃ c rest, chunk_text_fixed ['a', 'b', 'c', 'd', 'e'] 2 1 = some (c :: rest) ∧
      c ++ (rest.map (List.drop 1)).flatten = ['a', 'b', 'c', 'd', 'e'] ∧
      ∃ s, s < (['a', 'b', 'c', 'd', 'e'] : List Char).length ∧
        (c :: rest).getLastD [] = (['a', 'b', 'c', 'd', 'e'] : List Char).drop s :=
  chunk_coverage ['a', 'b', 'c', 'd', 'e'] 2 1 (by decide) (by decide) (by decide)

/-- C2 (counter-fact): when `overlap ≥ chunk_size` and the text is longer
than one window, the fixed-mode loop never terminates: from `start = 0`
the next start is `max(0, chunk_size - overlap) = 0`, so no amount of
fuel completes the loop.  The source forces no positive minimum advance. -/
theorem chunk_nontermination (text : List Char) (chunkSize overlap : Nat)
    (hcs : 1 ≤ chunkSize) (hov : chunkSize ≤ overlap) (hlen : chunkSize < text.length) :
    ∀ fuel, chunkLoop text chunkSize overlap fuel 0 = none := by
  intro fuel
  induction fuel with
  | zero => rfl
  | succ fuel ih =>
    have h0 : 0 < text.length := by omega
    have hmin : min (0 + chunkSize) text.length = chunkSize := by omega
    have hne : ¬ (chunkSize = text.length) := by omega
    have hz : chunkSize - overlap = 0 := by omega
    simp only [chunkLoop, if_pos h0, hmin, hz, ih, if_neg hne]

/-- Witness for C2's failing input: `text = "ab"`, `chunk_size = 1`,
`overlap = 1`; even with fuel 5 the loop does not finish. -/
theorem chunk_nontermination_witness :
    chunkLoop ['a', 'b'] 1 1 5 0 = none :=
  chunk_nontermination ['a', 'b'] 1 1 (by decide) (by decide) (by decide) 5

/-! ## Retrieval data model -/

/-- A candidate's metadata dictionary.  `doc_id = none` models a dictionary
without a `"doc_id"` key (Python `metadata.get("doc_id")` returns `None`);
`threat_tags` defaults to `[]` for a missing `"threat_tags"` key. -/
structure Metadata where
  doc_id : Option (List Char)
  threat_tags : List (List Char)
deriving DecidableEq, Inhabited

/-- The empty metadata dictionary that `metadata or {}` substitutes for an
absent metadata record. -/
def emptyMetadata : Metadata := ⟨none, []⟩

/-- Model of `QueryOptions` with the source's defaults.  `top_k` is a Python `int`,
modelled as `Int`; the weights are Python floats, modelled as `ℚ`. -/
structure QueryOptions where
  top_k : Int := 5
  retrieval_mode : List Char := "vector".toList
  semantic_weight : ℚ := 7 / 10
  keyword_weight : ℚ := 2 / 10
  threat_weight : ℚ := 1 / 10
  doc_ids : List (List Char) := []
  required_threat_tags : List (List Char) := []

/-- Model of `ThreatIntelProfile`. -/
structure ThreatIntelProfile where
  tags : List (List Char)
  tactics : List (List Char)
  indicators : List (List Char)
deriving DecidableEq, Inhabited

/-- One fetched nearest-neighbour candidate: id, distance, metadata
(`none` when the index returned no metadata record) and document text. -/
structure Candidate where
  id : List Char
  distance : ℚ
  metadata : Option Metadata
  document : List Char

/-- One ranked result.  The three component scores are `none` in vector
mode and `some _` in hybrid/intel mode, as in the source's result dicts. -/
structure Hit where
  id : List Char
  distance : ℚ
  score : ℚ
  semantic_score : Option ℚ
  keyword_score : Option ℚ
  threat_score : Option ℚ
  metadata : Metadata
  preview : List Char
deriving DecidableEq, Inhabited

/-! ## Scoring helpers -/

/-- The module-level `STOPWORDS` set. -/
def STOPWORDS : List (List Char) :=
  ["the", "a", "an", "and", "or", "for", "to", "of", "in", "on", "with",
   "by", "is", "are", "be", "about", "from"].map String.toList

/-- A character matched by the `_tokenize` regex class `[a-zA-Z0-9_-]`. -/
def isWordChar (c : Char) : Bool :=
  ('a' ≤ c && c ≤ 'z') || ('A' ≤ c && c ≤ 'Z') || ('0' ≤ c && c ≤ '9') ||
    c == '_' || c == '-'

/-- `re.findall(r"[a-zA-Z0-9_-]+", s)`: the maximal runs of word
characters, accumulated left to right (`acc` holds the current run,
reversed). -/
def splitRuns : List Char → List Char → List (List Char)
  | [], acc => if acc.isEmpty then [] else [acc.reverse]
  | ch :: cs, acc =>
    if isWordChar ch then splitRuns cs (ch :: acc)
    else if acc.isEmpty then splitRuns cs acc
    else acc.reverse :: splitRuns cs []

/-- Model of `_tokenize`: lowercase, split into word-character runs, keep words of
length > 2 that are not stopwords, as a set. -/
def tokenize (s : List Char) : Finset (List Char) :=
  ((splitRuns (s.map Char.toLower) []).filter
    (fun w => 2 < w.length && decide (w ∉ STOPWORDS))).toFinset

/-- Model of `_keyword_overlap`: `|query_tokens ∩ text_tokens| / |query_tokens|`,
and `0` when either token set is empty. -/
def keyword_overlap (query text : List Char) : ℚ :=
  let queryTokens := tokenize query
  let textTokens := tokenize text
  if queryTokens = ∅ ∨ textTokens = ∅ then 0
  else ((queryTokens ∩ textTokens).card : ℚ) / (queryTokens.card : ℚ)

/-- Model of `_threat_alignment`: fraction of the query profile's tags that also
appear in the candidate's tag set; `0` when the query has no tags or the
candidate's tag set is empty.  The denominator is the length of the
query's tag tuple, exactly as in the source. -/
def threat_alignment (queryProfile : ThreatIntelProfile) (md : Metadata) : ℚ :=
  if queryProfile.tags = [] then 0
  else
    let docTags := md.threat_tags.toFinset
    if docTags = ∅ then 0
    else ((docTags ∩ queryProfile.tags.toFinset).card : ℚ) /
      (queryProfile.tags.length : ℚ)

/-- Model of `_normalize_semantic_score`: `1 / (1 + max(distance, 0))`. -/
def normalize_semantic_score (distance : ℚ) : ℚ :=
  1 / (1 + max distance 0)

/-- Membership of Python's `metadata.get("doc_id")` (possibly `None`) in
the `doc_ids` tuple; `None` is never a member of a tuple of strings. -/
def docIdMem : Option (List Char) → List (List Char) → Bool
  | some d, l => decide (d ∈ l)
  | none, _ => false

/-- Model of `_passes_filters`. -/
def passes_filters (md : Metadata) (opts : QueryOptions) : Bool :=
  if opts.doc_ids ≠ [] ∧ docIdMem md.doc_id opts.doc_ids = false then false
  else if opts.required_threat_tags ≠ [] ∧
      ¬ (∀ t ∈ opts.required_threat_tags, t ∈ md.threat_tags) then false
  else true

/-! ## Rounding (`round(x, 6)`), idealised over `ℚ` -/

/-- Round-half-to-even on `ℚ`, the idealisation of Python's `round`. -/
def roundHalfEven (q : ℚ) : ℤ :=
  let f := ⌊q⌋
  if q - f < 1 / 2 then f
  else if (1 : ℚ) / 2 < q - f then f + 1
  else if f % 2 = 0 then f else f + 1

/-- Model of `round(x, 6)`: round to the nearest multiple of `10⁻⁶`. -/
def round6 (q : ℚ) : ℚ := (roundHalfEven (q * 1000000) : ℚ) / 1000000

/-! ## Hybrid rescoring (`_hybrid_rescore`) -/

/-- The hit dict built for one surviving candidate in `_hybrid_rescore`.
`sanitize` is the external redaction collaborator (`sanitize_text`). -/
def mkHybridHit (sanitize : List Char → List Char) (query : List Char)
    (queryProfile : ThreatIntelProfile) (opts : QueryOptions) (c : Candidate) : Hit :=
  let md := c.metadata.getD emptyMetadata
  let semanticScore := normalize_semantic_score c.distance
  let keywordScore := keyword_overlap query c.document
  let threatScore := threat_alignment queryProfile md
  let finalScore := semanticScore * opts.semantic_weight +
    keywordScore * opts.keyword_weight + threatScore * opts.threat_weight
  { id := c.id
    distance := c.distance
    score := round6 finalScore
    semantic_score := some (round6 semanticScore)
    keyword_score := some (round6 keywordScore)
    threat_score := some (round6 threatScore)
    metadata := md
    preview := sanitize (c.document.take 400) }

/-- The `rescored` list of `_hybrid_rescore` before sorting: surviving
candidates in fetch order, each turned into a hit. -/
def rescoredHits (sanitize : List Char → List Char) (query : List Char)
    (queryProfile : ThreatIntelProfile) (opts : QueryOptions)
    (cands : List Candidate) : List Hit :=
  cands.filterMap (fun c =>
    if passes_filters (c.metadata.getD emptyMetadata) opts then
      some (mkHybridHit sanitize query queryProfile opts c)
    else none)

/-- Stable insertion into a descending-by-score list: the new element goes
before every element of equal or smaller score it can reach, i.e. after
the block of strictly larger scores.  Since the new element originally
precedes every element of the list it is inserted into, this realises the
stability of Python's `list.sort(key=score, reverse=True)`. -/
def insertHitDesc (x : Hit) : List Hit → List Hit
  | [] => [x]
  | y :: ys => if y.score ≤ x.score then x :: y :: ys else y :: insertHitDesc x ys

/-- Stable sort by `score` descending, the semantics of
`rescored.sort(key=lambda item: item["score"], reverse=True)`. -/
def sortHitsDesc : List Hit → List Hit
  | [] => []
  | x :: xs => insertHitDesc x (sortHitsDesc xs)

/-- Python's `l[:k]` for an `int` bound `k` (negative `k` keeps all but
the last `|k|` elements). -/
def pySliceTo {α : Type} (k : Int) (l : List α) : List α :=
  if 0 ≤ k then l.take k.toNat else l.take (l.length - k.natAbs)

/-- Model of `_hybrid_rescore`: filter, score, stable-sort descending, truncate to
`options.top_k`. -/
def hybrid_rescore (sanitize : List Char → List Char) (query : List Char)
    (queryProfile : ThreatIntelProfile) (opts : QueryOptions)
    (cands : List Candidate) : List Hit :=
  pySliceTo opts.top_k (sortHitsDesc (rescoredHits sanitize query queryProfile opts cands))

/-! ## Vector mode and `query_rag` -/

/-- The hit dict built for one surviving candidate in vector mode. -/
def mkVectorHit (sanitize : List Char → List Char) (c : Candidate) : Hit :=
  let md := c.metadata.getD emptyMetadata
  { id := c.id
    distance := c.distance
    score := round6 (normalize_semantic_score c.distance)
    semantic_score := none
    keyword_score := none
    threat_score := none
    metadata := md
    preview := sanitize (c.document.take 400) }

/-- The vector-mode accumulation loop of `query_rag`: append each
surviving candidate's hit, and break as soon as `len(hits) >= top_k`
(checked after the append, with `n` hits accumulated so far). -/
def vectorLoop (sanitize : List Char → List Char) (opts : QueryOptions) :
    List Candidate → Nat → List Hit
  | [], _ => []
  | c :: cs, n =>
    if passes_filters (c.metadata.getD emptyMetadata) opts then
      if opts.top_k ≤ (n + 1 : Int) then [mkVectorHit sanitize c]
      else mkVectorHit sanitize c :: vectorLoop sanitize opts cs (n + 1)
    else vectorLoop sanitize opts cs n

/-- The error raised by `query_rag` for an unsupported mode
(`raise ValueError(...)`). -/
inductive QueryError where
  | valueError (msg : List Char)
deriving DecidableEq

/-- The per-query parallel arrays returned by the Vector Index
(`collection.query`), already projected to the first query. -/
structure Fetched where
  ids : List (List Char)
  distances : List ℚ
  metadatas : List (Option Metadata)
  documents : List (List Char)

/-- Model of `zip(ids, distances, metadatas, documents)`: Python `zip` truncates to
the shortest array. -/
def zipCandidates (f : Fetched) : List Candidate :=
  (((f.ids.zip f.distances).zip f.metadatas).zip f.documents).map
    (fun x => ⟨x.1.1.1, x.1.1.2, x.1.2, x.2⟩)

/-- The response dict of `query_rag`. -/
structure QueryResult where
  query : List Char
  retrieval_mode : List Char
  threat_profile : ThreatIntelProfile
  results : List Hit

/-- The candidate over-fetch bound `fetch_k = max(top_k * 3, top_k)`. -/
def fetchK (top_k : Int) : Int := max (top_k * 3) top_k

/-- The `QueryOptions(...)` construction inside `query_rag`: only the four
request fields are set, the weights keep their defaults. -/
def optsFor (top_k : Int) (retrieval_mode : List Char)
    (doc_ids required_threat_tags : List (List Char)) : QueryOptions :=
  { top_k := top_k, retrieval_mode := retrieval_mode,
    doc_ids := doc_ids, required_threat_tags := required_threat_tags }

/-- Model of `query_rag`, from query embedding onwards.  The embedding call and the
index fetch are external collaborators, so the fetched parallel arrays
are a parameter; `queryProfile` is the result of the (unmodelled) threat
profile extraction on the query; the options are built exactly as in the
source, with default weights.  Mode dispatch and the `ValueError` for an
unsupported mode are modelled exactly. -/
def query_rag (sanitize : List Char → List Char) (query : List Char)
    (queryProfile : ThreatIntelProfile) (top_k : Int) (retrieval_mode : List Char)
    (doc_ids required_threat_tags : List (List Char)) (f : Fetched) :
    Except QueryError QueryResult :=
  let opts : QueryOptions := optsFor top_k retrieval_mode doc_ids required_threat_tags
  let cands := zipCandidates f
  if retrieval_mode = "vector".toList then
    .ok ⟨query, retrieval_mode, queryProfile, vectorLoop sanitize opts cands 0⟩
  else if retrieval_mode = "hybrid".toList ∨ retrieval_mode = "intel".toList then
    .ok ⟨query, retrieval_mode, queryProfile,
      hybrid_rescore sanitize query queryProfile opts cands⟩
  else
    .error (.valueError ("Unsupported retrieval mode: ".toList ++ retrieval_mode))

/-- The hit list of a `query_rag` outcome (`[]` when the call failed). -/
def resultsOf : Except QueryError QueryResult → List Hit
  | .ok r => r.results
  | .error _ => []

/-- The validation constraints of the HTTP layer's `RagQueryRequest` model
(`main.py`): `top_k: int = Field(5, ge=1, le=20)` and
`retrieval_mode: str = Field("vector", pattern="^(vector|hybrid|intel)$")`.
A request violating them is rejected before `query_rag` runs. -/
def ragQueryRequestValid (top_k : Int) (retrieval_mode : List Char) : Bool :=
  (decide (1 ≤ top_k) && decide (top_k ≤ 20)) &&
    (decide (retrieval_mode = "vector".toList) ||
     decide (retrieval_mode = "hybrid".toList) ||
     decide (retrieval_mode = "intel".toList))

/-! ## Ingestion (`ingest_upload`) -/

/-- The per-chunk metadata dict of `_build_metadata`.  The content hash,
threat profile and sanitised preview are produced by collaborator
functions passed in as parameters. -/
structure ChunkMeta where
  doc_id : List Char
  source : List Char
  chunk_index : Nat
  hash : List Char
  threat_tags : List (List Char)
  mitre_tactics : List (List Char)
  intel_indicators : List (List Char)
  sanitized_preview : List Char

/-- Model of `_build_metadata`, parameterised by the hash function (`hashlib`),
the redaction function and the threat profile extractor. -/
def build_metadata (hashText sanitize : List Char → List Char)
    (extractProfile : List Char → ThreatIntelProfile)
    (docId : List Char) (chunk : List Char) (index : Nat) : ChunkMeta :=
  let profile := extractProfile chunk
  { doc_id := docId
    source := docId
    chunk_index := index
    hash := hashText chunk
    threat_tags := profile.tags
    mitre_tactics := profile.tactics
    intel_indicators := profile.indicators
    sanitized_preview := sanitize (chunk.take 280) }

/-- The single `collection.upsert(...)` call of `ingest_upload`. -/
structure UpsertCall where
  ids : List (List Char)
  embeddings : List (List ℚ)
  documents : List (List Char)
  metadatas : List ChunkMeta

/-- The summary dict returned by `ingest_upload`. -/
structure IngestSummary where
  chunks : Nat
  doc_id : List Char
  hash : List Char
  threat_tags : List (List Char)
  mitre_tactics : List (List Char)
  intel_indicators : List (List Char)

/-- The chunk id `f"{upload.filename}:{index}"`. -/
def chunkId (docId : List Char) (index : Nat) : List Char :=
  docId ++ ':' :: (Nat.repr index).toList

/-- The chunks `ingest_upload` computes with the default parameters
`chunk_size=1000`, `overlap=150` in fixed mode (`150 < 1000`, so the
fuelled loop always succeeds and `getD` never takes its default). -/
def chunksOf (text : List Char) : List (List Char) :=
  (chunk_text_fixed text 1000 150).getD []

/-- Model of `ingest_upload` from decoded text onwards: chunk, build ids and
metadata, embed the whole batch, and only then upsert.  `embed` is the
external Embedding Provider (`Except.error` is an embedding failure);
the function returns the upsert call it would issue together with the
summary, or the provider's error, in which case no upsert happens. -/
def ingest_upload (embed : List (List Char) → Except Unit (List (List ℚ)))
    (hashText sanitize : List Char → List Char)
    (extractProfile : List Char → ThreatIntelProfile)
    (docId text : List Char) : Except Unit (UpsertCall × IngestSummary) :=
  let chunks := chunksOf text
  let identifiers := (List.range chunks.length).map (chunkId docId)
  let metadatas := chunks.enum.map
    (fun ic => build_metadata hashText sanitize extractProfile docId ic.2 ic.1)
  match embed chunks with
  | .error e => .error e
  | .ok embeddings =>
    let profile := extractProfile text
    .ok (⟨identifiers, embeddings, chunks, metadatas⟩,
      ⟨chunks.length, docId, hashText text,
        profile.tags, profile.tactics, profile.indicators⟩)

/-! ## Helper lemmas: rounding -/

theorem floor_le_roundHalfEven (q : ℚ) : ⌊q⌋ ≤ roundHalfEven q := by
  unfold roundHalfEven
  dsimp only
  split
  · exact le_refl _
  · split
    · omega
    · split <;> omega

theorem roundHalfEven_le_ceil (q : ℚ) : roundHalfEven q ≤ ⌈q⌉ := by
  have hfc : ⌊q⌋ ≤ ⌈q⌉ := Int.floor_le_ceil q
  have hup : (1 : ℚ) / 2 ≤ q - ⌊q⌋ → ⌊q⌋ + 1 ≤ ⌈q⌉ := by
    intro h
    have hlt : (⌊q⌋ : ℚ) < q := by
      have := Int.floor_le q
      nlinarith
    have := Int.lt_ceil.mpr hlt
    omega
  unfold roundHalfEven
  dsimp only
  split
  · exact hfc
  · next h1 =>
    split
    · next h2 => exact hup (le_of_lt h2)
    · split
      · exact hfc
      · exact hup (le_of_not_lt h1)

theorem round6_nonneg {q : ℚ} (h : 0 ≤ q) : 0 ≤ round6 q := by
  unfold round6
  have h1 : (0 : ℤ) ≤ ⌊q * 1000000⌋ := Int.le_floor.mpr (by positivity)
  have h2 := floor_le_roundHalfEven (q * 1000000)
  have : (0 : ℚ) ≤ (roundHalfEven (q * 1000000) : ℚ) := by exact_mod_cast le_trans h1 h2
  positivity

theorem round6_le_of_le {q W : ℚ} (hq : q ≤ W) (n : ℤ) (hn : W * 1000000 = n) :
    round6 q ≤ W := by
  unfold round6
  have h1 : q * 1000000 ≤ (n : ℚ) := by
    rw [← hn]
    nlinarith
  have h2 : ⌈q * 1000000⌉ ≤ n := Int.ceil_le.mpr h1
  have h3 := roundHalfEven_le_ceil (q * 1000000)
  have h4 : (roundHalfEven (q * 1000000) : ℚ) ≤ (n : ℚ) := by exact_mod_cast le_trans h3 h2
  have hW : W = (n : ℚ) / 1000000 := by
    field_simp at hn ⊢
    linarith [hn]
  rw [hW]
  apply div_le_div_of_nonneg_right h4 (by norm_num) |>.trans_eq rfl

theorem round6_zero : round6 0 = 0 := by
  have h0 : roundHalfEven 0 = 0 := by
    unfold roundHalfEven
    norm_num
  unfold round6
  norm_num [h0]

/-! ## Helper lemmas: component score ranges -/

theorem normalize_semantic_score_pos (d : ℚ) : 0 < normalize_semantic_score d := by
  unfold normalize_semantic_score
  have h : (0 : ℚ) < 1 + max d 0 := by
    have := le_max_right d 0
    linarith
  positivity

theorem normalize_semantic_score_le_one (d : ℚ) : normalize_semantic_score d ≤ 1 := by
  unfold normalize_semantic_score
  have h : (1 : ℚ) ≤ 1 + max d 0 := by
    have := le_max_right d 0
    linarith
  rw [div_le_one (by linarith)]
  linarith

theorem keyword_overlap_nonneg (q t : List Char) : 0 ≤ keyword_overlap q t := by
  unfold keyword_overlap
  dsimp only
  split
  · exact le_refl 0
  · positivity

theorem keyword_overlap_le_one (q t : List Char) : keyword_overlap q t ≤ 1 := by
  unfold keyword_overlap
  dsimp only
  split
  · norm_num
  · next h =>
    push_neg at h
    have hcard : 0 < (tokenize q).card := Finset.card_pos.mpr (Finset.nonempty_iff_ne_empty.mpr h.1)
    rw [div_le_one (by exact_mod_cast hcard)]
    exact_mod_cast Finset.card_le_card (Finset.inter_subset_left)

theorem threat_alignment_nonneg (qp : ThreatIntelProfile) (md : Metadata) :
    0 ≤ threat_alignment qp md := by
  unfold threat_alignment
  dsimp only
  split
  · exact le_refl 0
  · split
    · exact le_refl 0
    · positivity

theorem threat_alignment_le_one (qp : ThreatIntelProfile) (md : Metadata) :
    threat_alignment qp md ≤ 1 := by
  unfold threat_alignment
  dsimp only
  split
  · norm_num
  · next h =>
    split
    · norm_num
    · have hlen : 0 < qp.tags.length := List.length_pos.mpr h
      rw [div_le_one (by exact_mod_cast hlen)]
      have h1 : (md.threat_tags.toFinset ∩ qp.tags.toFinset).card ≤ qp.tags.toFinset.card :=
        Finset.card_le_card (Finset.inter_subset_right)
      have h2 : qp.tags.toFinset.card ≤ qp.tags.length := List.toFinset_card_le qp.tags
      exact_mod_cast le_trans h1 h2

/-! ## Helper lemmas: stable descending sort -/

theorem mem_insertHitDesc {x a : Hit} {l : List Hit} :
    a ∈ insertHitDesc x l ↔ a = x ∨ a ∈ l := by
  induction l with
  | nil => simp [insertHitDesc]
  | cons y ys ih =>
    unfold insertHitDesc
    split
    · simp
    · simp [ih]
      tauto

theorem mem_sortHitsDesc {a : Hit} {l : List Hit} :
    a ∈ sortHitsDesc l ↔ a ∈ l := by
  induction l with
  | nil => simp [sortHitsDesc]
  | cons y ys ih => simp [sortHitsDesc, mem_insertHitDesc, ih]

theorem insertHitDesc_pairwise {x : Hit} {l : List Hit}
    (hl : l.Pairwise (fun a b => b.score ≤ a.score)) :
    (insertHitDesc x l).Pairwise (fun a b => b.score ≤ a.score) := by
  induction l with
  | nil => simp [insertHitDesc]
  | cons y ys ih =>
    rw [List.pairwise_cons] at hl
    unfold insertHitDesc
    split
    · next hxy =>
      rw [List.pairwise_cons]
      refine ⟨?_, List.pairwise_cons.mpr hl⟩
      intro z hz
      rcases List.mem_cons.mp hz with h | h
      · exact h ▸ hxy
      · exact le_trans (hl.1 z h) hxy
    · next hxy =>
      rw [List.pairwise_cons]
      refine ⟨?_, ih hl.2⟩
      intro z hz
      rcases mem_insertHitDesc.mp hz with h | h
      · exact h ▸ le_of_lt (lt_of_not_le hxy)
      · exact hl.1 z h

theorem sortHitsDesc_pairwise (l : List Hit) :
    (sortHitsDesc l).Pairwise (fun a b => b.score ≤ a.score) := by
  induction l with
  | nil => simp [sortHitsDesc]
  | cons y ys ih => exact insertHitDesc_pairwise ih

/-- Stability of one insertion: inserting `x` into a descending-sorted
list leaves the sublist of any fixed score `s` unchanged, except that if
`x` has score `s` it lands at that sublist's front (before every equal
element, which all came after `x` originally). -/
theorem filter_insertHitDesc (x : Hit) (l : List Hit) (s : ℚ)
    (hl : l.Pairwise (fun a b => b.score ≤ a.score)) :
    (insertHitDesc x l).filter (fun h => decide (h.score = s)) =
      if x.score = s then x :: l.filter (fun h => decide (h.score = s))
      else l.filter (fun h => decide (h.score = s)) := by
  induction l with
  | nil =>
    simp only [insertHitDesc, List.filter]
    split <;> simp_all
  | cons y ys ih =>
    rw [List.pairwise_cons] at hl
    unfold insertHitDesc
    split
    · next hxy =>
      by_cases hxs : x.score = s
      · simp [List.filter_cons, hxs]
      · simp [List.filter_cons, hxs]
    · next hxy =>
      have hltxy : x.score < y.score := lt_of_not_le hxy
      rw [List.filter_cons, List.filter_cons]
      by_cases hxs : x.score = s
      · have hys : ¬ (y.score = s) := by
          intro hy
          rw [hy, hxs] at hltxy
          exact lt_irrefl s hltxy
        simp only [hxs, if_pos rfl] at *
        simp only [decide_eq_true_eq, hys, decide_False]
        rw [ih hl.2]
        simp [hxs, hys]
      · rw [ih hl.2]
        simp [hxs]

/-- Stability of the whole sort: for every score value `s`, the hits of
score `s` appear in `sortHitsDesc l` exactly as they appear in `l`. -/
theorem sortHitsDesc_filter (l : List Hit) (s : ℚ) :
    (sortHitsDesc l).filter (fun h => decide (h.score = s)) =
      l.filter (fun h => decide (h.score = s)) := by
  induction l with
  | nil => rfl
  | cons y ys ih =>
    show (insertHitDesc y (sortHitsDesc ys)).filter _ = _
    rw [filter_insertHitDesc y (sortHitsDesc ys) s (sortHitsDesc_pairwise ys), ih,
      List.filter_cons]
    by_cases hys : y.score = s
    · simp [hys]
    · simp [hys]

/-! ## Helper lemmas: filters and membership -/

/-- What `_passes_filters` returning `True` guarantees. -/
theorem passes_filters_true {md : Metadata} {opts : QueryOptions}
    (h : passes_filters md opts = true) :
    (opts.doc_ids ≠ [] → ∃ d, md.doc_id = some d ∧ d ∈ opts.doc_ids) ∧
    (opts.required_threat_tags ≠ [] →
      ∀ t ∈ opts.required_threat_tags, t ∈ md.threat_tags) := by
  unfold passes_filters at h
  constructor
  · intro hne
    by_cases hmem : docIdMem md.doc_id opts.doc_ids = false
    · simp [hne, hmem] at h
    · cases hd : md.doc_id with
      | none => simp [docIdMem, hd] at hmem
      | some d =>
        refine ⟨d, rfl, ?_⟩
        rw [hd] at hmem
        simpa [docIdMem] using hmem
  · intro hne t ht
    by_cases hall : ∀ t ∈ opts.required_threat_tags, t ∈ md.threat_tags
    · exact hall t ht
    · have : ¬ (opts.doc_ids ≠ [] ∧ docIdMem md.doc_id opts.doc_ids = false) := by
        intro hc
        simp [hc.1, hc.2] at h
      simp [this, hne, hall] at h

/-- `passes_filters` on the empty metadata record (absent metadata, or a
metadata dict without `doc_id`/`threat_tags` keys) succeeds exactly when
both filters are empty. -/
theorem passes_filters_emptyMetadata (opts : QueryOptions) :
    passes_filters emptyMetadata opts = true ↔
      opts.doc_ids = [] ∧ opts.required_threat_tags = [] := by
  by_cases h1 : opts.doc_ids = []
  · by_cases h2 : opts.required_threat_tags = []
    · simp [passes_filters, emptyMetadata, docIdMem, h1, h2]
    · rcases List.exists_mem_of_ne_nil _ h2 with ⟨t, ht⟩
      have hnall : ¬ (∀ t ∈ opts.required_threat_tags, t ∈ ([] : List (List Char))) := by
        intro hall
        simpa using hall t ht
      simp [passes_filters, emptyMetadata, docIdMem, h1, h2, hnall]
      exact ⟨t, ht⟩
  · simp [passes_filters, emptyMetadata, docIdMem, h1]

/-- Every hit of the pre-sort `rescored` list comes from a surviving
candidate, via `mkHybridHit`. -/
theorem mem_rescoredHits {sanitize : List Char → List Char} {query : List Char}
    {qp : ThreatIntelProfile} {opts : QueryOptions} {cands : List Candidate} {h : Hit}
    (hmem : h ∈ rescoredHits sanitize query qp opts cands) :
    ∃ c ∈ cands, passes_filters (c.metadata.getD emptyMetadata) opts = true ∧
      h = mkHybridHit sanitize query qp opts c := by
  unfold rescoredHits at hmem
  rcases List.mem_filterMap.mp hmem with ⟨c, hc, heq⟩
  by_cases hp : passes_filters (c.metadata.getD emptyMetadata) opts = true
  · rw [if_pos hp] at heq
    exact ⟨c, hc, hp, (Option.some.inj heq).symm⟩
  · rw [if_neg hp] at heq
    exact absurd heq (by simp)

/-- Every hit returned by `_hybrid_rescore` comes from a surviving
candidate, via `mkHybridHit`. -/
theorem mem_hybrid_rescore {sanitize : List Char → List Char} {query : List Char}
    {qp : ThreatIntelProfile} {opts : QueryOptions} {cands : List Candidate} {h : Hit}
    (hmem : h ∈ hybrid_rescore sanitize query qp opts cands) :
    ∃ c ∈ cands, passes_filters (c.metadata.getD emptyMetadata) opts = true ∧
      h = mkHybridHit sanitize query qp opts c := by
  unfold hybrid_rescore pySliceTo at hmem
  have h1 : h ∈ sortHitsDesc (rescoredHits sanitize query qp opts cands) := by
    split at hmem <;> exact (List.take_sublist _ _).mem hmem
  exact mem_rescoredHits (mem_sortHitsDesc.mp h1)

/-- Every hit returned by the vector-mode loop comes from a surviving
candidate, via `mkVectorHit`. -/
theorem mem_vectorLoop {sanitize : List Char → List Char} {opts : QueryOptions}
    {cands : List Candidate} {n : Nat} {h : Hit}
    (hmem : h ∈ vectorLoop sanitize opts cands n) :
    ∃ c ∈ cands, passes_filters (c.metadata.getD emptyMetadata) opts = true ∧
      h = mkVectorHit sanitize c := by
  induction cands generalizing n with
  | nil => simp [vectorLoop] at hmem
  | cons c cs ih =>
    unfold vectorLoop at hmem
    split at hmem
    · next hp =>
      split at hmem
      · rcases List.mem_singleton.mp hmem with rfl
        exact ⟨c, List.mem_cons_self c cs, hp, rfl⟩
      · rcases List.mem_cons.mp hmem with rfl | hmem'
        · exact ⟨c, List.mem_cons_self c cs, hp, rfl⟩
        · rcases ih hmem' with ⟨c', hc', hp', heq⟩
          exact ⟨c', List.mem_cons_of_mem c hc', hp', heq⟩
    · rcases ih hmem with ⟨c', hc', hp', heq⟩
      exact ⟨c', List.mem_cons_of_mem c hc', hp', heq⟩

/-! ## Helper lemmas: result lengths and `query_rag` case analysis -/

theorem vectorLoop_length_le {sanitize : List Char → List Char} {opts : QueryOptions}
    (cands : List Candidate) (n : Nat) (h : (n : Int) < opts.top_k) :
    ((vectorLoop sanitize opts cands n).length : Int) ≤ opts.top_k - n := by
  induction cands generalizing n with
  | nil =>
    simp [vectorLoop]
    omega
  | cons c cs ih =>
    unfold vectorLoop
    split
    · split
      · simp
        omega
      · next htk =>
        push_neg at htk
        have hrec := ih (n + 1) (by push_cast; omega)
        simp only [List.length_cons]
        push_cast at hrec ⊢
        omega
    · exact ih n h

theorem vectorLoop_length_le_one {sanitize : List Char → List Char} {opts : QueryOptions}
    (cands : List Candidate) (n : Nat) (h : opts.top_k ≤ 0) :
    (vectorLoop sanitize opts cands n).length ≤ 1 := by
  induction cands generalizing n with
  | nil => simp [vectorLoop]
  | cons c cs ih =>
    unfold vectorLoop
    split
    · split
      · simp
      · next htk =>
        exfalso
        apply htk
        omega
    · exact ih n

theorem pySliceTo_length_le {α : Type} (k : Int) (l : List α) (hk : 0 ≤ k) :
    ((pySliceTo k l).length : Int) ≤ k := by
  unfold pySliceTo
  rw [if_pos hk]
  simp [List.length_take]
  omega

/-- Mode dispatch of `query_rag`: exactly one of the three outcomes. -/
theorem query_rag_cases (sanitize : List Char → List Char) (query : List Char)
    (qp : ThreatIntelProfile) (top_k : Int) (mode : List Char)
    (doc_ids req : List (List Char)) (f : Fetched) :
    (mode = "vector".toList ∧
      query_rag sanitize query qp top_k mode doc_ids req f =
        .ok ⟨query, mode, qp,
          vectorLoop sanitize (optsFor top_k mode doc_ids req) (zipCandidates f) 0⟩) ∨
    ((mode = "hybrid".toList ∨ mode = "intel".toList) ∧
      query_rag sanitize query qp top_k mode doc_ids req f =
        .ok ⟨query, mode, qp,
          hybrid_rescore sanitize query qp (optsFor top_k mode doc_ids req) (zipCandidates f)⟩) ∨
    (mode ≠ "vector".toList ∧ mode ≠ "hybrid".toList ∧ mode ≠ "intel".toList ∧
      query_rag sanitize query qp top_k mode doc_ids req f =
        .error (.valueError ("Unsupported retrieval mode: ".toList ++ mode))) := by
  by_cases h1 : mode = "vector".toList
  · refine Or.inl ⟨h1, ?_⟩
    unfold query_rag
    dsimp only
    rw [if_pos h1]
  · by_cases h2 : mode = "hybrid".toList ∨ mode = "intel".toList
    · refine Or.inr (Or.inl ⟨h2, ?_⟩)
      unfold query_rag
      dsimp only
      rw [if_neg h1, if_pos h2]
    · push_neg at h2
      refine Or.inr (Or.inr ⟨h1, h2.1, h2.2, ?_⟩)
      unfold query_rag
      dsimp only
      rw [if_neg h1, if_neg (by tauto)]

theorem mkVectorHit_metadata (sanitize : List Char → List Char) (c : Candidate) :
    (mkVectorHit sanitize c).metadata = c.metadata.getD emptyMetadata := rfl

theorem mkHybridHit_metadata (sanitize : List Char → List Char) (query : List Char)
    (qp : ThreatIntelProfile) (opts : QueryOptions) (c : Candidate) :
    (mkHybridHit sanitize query qp opts c).metadata = c.metadata.getD emptyMetadata := rfl

theorem mkHybridHit_score (sanitize : List Char → List Char) (query : List Char)
    (qp : ThreatIntelProfile) (opts : QueryOptions) (c : Candidate) :
    (mkHybridHit sanitize query qp opts c).score =
      round6 (normalize_semantic_score c.distance * opts.semantic_weight +
        keyword_overlap query c.document * opts.keyword_weight +
        threat_alignment qp (c.metadata.getD emptyMetadata) * opts.threat_weight) := rfl

theorem mkHybridHit_threat_score (sanitize : List Char → List Char) (query : List Char)
    (qp : ThreatIntelProfile) (opts : QueryOptions) (c : Candidate) :
    (mkHybridHit sanitize query qp opts c).threat_score =
      some (round6 (threat_alignment qp (c.metadata.getD emptyMetadata))) := rfl

/-! ## Claim theorems -/

/-- C4: in every supported retrieval mode, a non-empty `doc_ids` filter
means every returned hit's metadata carries a `doc_id` belonging to that
set, and a non-empty `required_threat_tags` filter means every returned
hit's tag list contains all required tags. -/
theorem filter_correctness (sanitize : List Char → List Char) (query : List Char)
    (qp : ThreatIntelProfile) (top_k : Int) (mode : List Char)
    (doc_ids req : List (List Char)) (f : Fetched) :
    (doc_ids ≠ [] →
      ∀ h ∈ resultsOf (query_rag sanitize query qp top_k mode doc_ids req f),
        ∃ d, h.metadata.doc_id = some d ∧ d ∈ doc_ids) ∧
    (req ≠ [] →
      ∀ h ∈ resultsOf (query_rag sanitize query qp top_k mode doc_ids req f),
        ∀ t ∈ req, t ∈ h.metadata.threat_tags) := by
  have key : ∀ h ∈ resultsOf (query_rag sanitize query qp top_k mode doc_ids req f),
      passes_filters h.metadata (optsFor top_k mode doc_ids req) = true := by
    intro h hmem
    rcases query_rag_cases sanitize query qp top_k mode doc_ids req f with
      ⟨_, heq⟩ | ⟨_, heq⟩ | ⟨_, _, _, heq⟩
    · rw [heq] at hmem
      rcases mem_vectorLoop hmem with ⟨c, _, hp, rfl⟩
      rwa [mkVectorHit_metadata]
    · rw [heq] at hmem
      rcases mem_hybrid_rescore hmem with ⟨c, _, hp, rfl⟩
      rwa [mkHybridHit_metadata]
    · rw [heq] at hmem
      exact absurd hmem (List.not_mem_nil h)
  constructor
  · intro hne h hmem
    exact (passes_filters_true (key h hmem)).1 hne
  · intro hne h hmem
    exact (passes_filters_true (key h hmem)).2 hne

/-- Witness for C4: a hybrid query with both filters non-empty over one
matching and one non-matching candidate. -/
theorem filter_correctness_witness :
    ((["docA".toList] : List (List Char)) ≠ [] ∧
      ∀ h ∈ resultsOf (query_rag id "q".toList ⟨["ransomware".toList], [], []⟩ 2
          "hybrid".toList ["docA".toList] ["ransomware".toList]
          ⟨["docA:0".toList, "docB:0".toList], [1/5, 1/2],
            [some ⟨some "docA".toList, ["ransomware".toList]⟩,
             some ⟨some "docB".toList, ["phishing".toList]⟩],
            ["alpha".toList, "beta".toList]⟩),
        ∃ d, h.metadata.doc_id = some d ∧ d ∈ (["docA".toList] : List (List Char))) ∧
    ((["ransomware".toList] : List (List Char)) ≠ [] ∧
      ∀ h ∈ resultsOf (query_rag id "q".toList ⟨["ransomware".toList], [], []⟩ 2
          "hybrid".toList ["docA".toList] ["ransomware".toList]
          ⟨["docA:0".toList, "docB:0".toList], [1/5, 1/2],
            [some ⟨some "docA".toList, ["ransomware".toList]⟩,
             some ⟨some "docB".toList, ["phishing".toList]⟩],
            ["alpha".toList, "beta".toList]⟩),
        ∀ t ∈ (["ransomware".toList] : List (List Char)), t ∈ h.metadata.threat_tags) :=
  ⟨⟨by decide,
    (filter_correctness id "q".toList ⟨["ransomware".toList], [], []⟩ 2 "hybrid".toList
      ["docA".toList] ["ransomware".toList] _).1 (by decide)⟩,
   ⟨by decide,
    (filter_correctness id "q".toList ⟨["ransomware".toList], [], []⟩ 2 "hybrid".toList
      ["docA".toList] ["ransomware".toList] _).2 (by decide)⟩⟩

/-- C5 (amended): the semantic score is `1 / (1 + max(distance, 0))`,
always in `(0, 1]`, antitone in the distance, strictly decreasing on
nonnegative distances, and equal for two distances exactly when their
clamps `max(distance, 0)` agree (so strictly higher for `d₁ < d₂` only
once distances are nonnegative; negative distances are clamped and tie). -/
theorem semantic_score_spec (d₁ d₂ : ℚ) (h : d₁ ≤ d₂) :
    normalize_semantic_score d₁ = 1 / (1 + max d₁ 0) ∧
    0 < normalize_semantic_score d₁ ∧ normalize_semantic_score d₁ ≤ 1 ∧
    normalize_semantic_score d₂ ≤ normalize_semantic_score d₁ ∧
    (0 ≤ d₁ → d₁ < d₂ → normalize_semantic_score d₂ < normalize_semantic_score d₁) ∧
    (normalize_semantic_score d₁ = normalize_semantic_score d₂ ↔ max d₁ 0 = max d₂ 0) := by
  have hpos₁ : (0 : ℚ) < 1 + max d₁ 0 := by
    have := le_max_right d₁ 0
    linarith
  have hpos₂ : (0 : ℚ) < 1 + max d₂ 0 := by
    have := le_max_right d₂ 0
    linarith
  refine ⟨rfl, normalize_semantic_score_pos d₁, normalize_semantic_score_le_one d₁, ?_, ?_, ?_⟩
  · unfold normalize_semantic_score
    have hle : 1 + max d₁ 0 ≤ 1 + max d₂ 0 := by
      have := max_le_max h (le_refl (0 : ℚ))
      linarith
    exact one_div_le_one_div_of_le hpos₁ hle
  · intro h0 hlt
    unfold normalize_semantic_score
    have h₁ : max d₁ 0 = d₁ := max_eq_left h0
    have h₂ : max d₂ 0 = d₂ := max_eq_left (le_trans h0 (le_of_lt hlt))
    rw [h₁, h₂]
    exact one_div_lt_one_div_of_lt (by linarith) (by linarith)
  · unfold normalize_semantic_score
    rw [div_eq_div_iff (ne_of_gt hpos₁) (ne_of_gt hpos₂)]
    constructor
    · intro heq
      linarith
    · intro heq
      linarith

/-- Witness for C5 at `d₁ = 0`, `d₂ = 1`. -/
theorem semantic_score_spec_witness :
    (0 : ℚ) ≤ 1 ∧
    (normalize_semantic_score 0 = 1 / (1 + max 0 0) ∧
    0 < normalize_semantic_score 0 ∧ normalize_semantic_score 0 ≤ 1 ∧
    normalize_semantic_score 1 ≤ normalize_semantic_score 0 ∧
    ((0 : ℚ) ≤ 0 → (0 : ℚ) < 1 → normalize_semantic_score 1 < normalize_semantic_score 0) ∧
    (normalize_semantic_score 0 = normalize_semantic_score 1 ↔
      max (0 : ℚ) 0 = max (1 : ℚ) 0)) :=
  ⟨by norm_num, semantic_score_spec 0 1 (by norm_num)⟩

/-- C5 (counterexample): two distinct negative distances `-2 < -1` get the
same semantic score, so the score is not strictly higher for the smaller
distance and equality does not force `d₁ = d₂`. -/
theorem semantic_monotonicity_counterexample :
    (-2 : ℚ) < -1 ∧ (-2 : ℚ) ≠ -1 ∧
    normalize_semantic_score (-2) = normalize_semantic_score (-1) := by
  refine ⟨by norm_num, by norm_num, ?_⟩
  unfold normalize_semantic_score
  rw [max_eq_right (by norm_num : (-2 : ℚ) ≤ 0), max_eq_right (by norm_num : (-1 : ℚ) ≤ 0)]

/-- C6: for `top_k ≥ 1`, in every supported mode the returned hit list
never has more than `top_k` entries (and an unsupported mode returns no
hits at all). -/
theorem topk_bound (sanitize : List Char → List Char) (query : List Char)
    (qp : ThreatIntelProfile) (top_k : Int) (mode : List Char)
    (doc_ids req : List (List Char)) (f : Fetched) (htk : 1 ≤ top_k) :
    ((resultsOf (query_rag sanitize query qp top_k mode doc_ids req f)).length : Int) ≤
      top_k := by
  rcases query_rag_cases sanitize query qp top_k mode doc_ids req f with
    ⟨_, heq⟩ | ⟨_, heq⟩ | ⟨_, _, _, heq⟩
  · rw [heq]
    have := @vectorLoop_length_le sanitize (optsFor top_k mode doc_ids req)
      (zipCandidates f) 0 (by simpa [optsFor] using htk)
    simpa [resultsOf, optsFor] using this
  · rw [heq]
    show ((hybrid_rescore sanitize query qp (optsFor top_k mode doc_ids req)
      (zipCandidates f)).length : Int) ≤ top_k
    unfold hybrid_rescore
    exact pySliceTo_length_le _ _ (by simp only [optsFor]; omega)
  · rw [heq]
    simp [resultsOf]
    omega

/-- Witness for C6: `top_k = 1` over two candidates in vector mode. -/
theorem topk_bound_witness :
    (1 : Int) ≤ 1 ∧
    ((resultsOf (query_rag id [] ⟨[], [], []⟩ 1 "vector".toList [] []
        ⟨[['a'], ['b']], [0, 0], [none, none], [[], []]⟩)).length : Int) ≤ 1 :=
  ⟨le_refl 1,
   topk_bound id [] ⟨[], [], []⟩ 1 "vector".toList [] []
     ⟨[['a'], ['b']], [0, 0], [none, none], [[], []]⟩ (le_refl 1)⟩

/-- C7: any unsupported retrieval mode makes `query_rag` fail with a
`ValueError` whose message contains "Unsupported retrieval mode" and ends
with the offending mode, and no hit list is returned. -/
theorem unsupported_mode_rejected (sanitize : List Char → List Char) (query : List Char)
    (qp : ThreatIntelProfile) (top_k : Int) (mode : List Char)
    (doc_ids req : List (List Char)) (f : Fetched)
    (h1 : mode ≠ "vector".toList) (h2 : mode ≠ "hybrid".toList)
    (h3 : mode ≠ "intel".toList) :
    query_rag sanitize query qp top_k mode doc_ids req f =
      .error (.valueError ("Unsupported retrieval mode: ".toList ++ mode)) ∧
    "Unsupported retrieval mode".toList <:+: ("Unsupported retrieval mode: ".toList ++ mode) ∧
    mode <:+ ("Unsupported retrieval mode: ".toList ++ mode) ∧
    resultsOf (query_rag sanitize query qp top_k mode doc_ids req f) = [] := by
  rcases query_rag_cases sanitize query qp top_k mode doc_ids req f with
    ⟨hv, _⟩ | ⟨hv, _⟩ | ⟨_, _, _, heq⟩
  · exact absurd hv h1
  · rcases hv with hv | hv
    · exact absurd hv h2
    · exact absurd hv h3
  · refine ⟨heq, ?_, List.suffix_append _ _, by rw [heq]; rfl⟩
    have hsplit : "Unsupported retrieval mode: ".toList =
        "Unsupported retrieval mode".toList ++ ": ".toList := by decide
    rw [hsplit, List.append_assoc]
    exact List.IsPrefix.isInfix (List.prefix_append _ _)

/-- Witness for C7 at `retrieval_mode = "bogus"`. -/
theorem unsupported_mode_rejected_witness :
    query_rag id [] ⟨[], [], []⟩ 5 "bogus".toList [] [] ⟨[], [], [], []⟩ =
      .error (.valueError ("Unsupported retrieval mode: ".toList ++ "bogus".toList)) ∧
    "Unsupported retrieval mode".toList <:+:
      ("Unsupported retrieval mode: ".toList ++ "bogus".toList) ∧
    "bogus".toList <:+ ("Unsupported retrieval mode: ".toList ++ "bogus".toList) ∧
    resultsOf (query_rag id [] ⟨[], [], []⟩ 5 "bogus".toList [] [] ⟨[], [], [], []⟩) = [] :=
  unsupported_mode_rejected id [] ⟨[], [], []⟩ 5 "bogus".toList [] [] ⟨[], [], [], []⟩
    (by decide) (by decide) (by decide)

/-- Evaluation of `round6` when the scaled value sits in the lower half
of its unit interval. -/
theorem round6_eq (q : ℚ) (z : ℤ) (h1 : (z : ℚ) ≤ q * 1000000)
    (h2 : q * 1000000 < (z : ℚ) + 1 / 2) :
    round6 q = (z : ℚ) / 1000000 := by
  have hfl : ⌊q * 1000000⌋ = z := Int.floor_eq_iff.mpr ⟨h1, by linarith⟩
  have hr : roundHalfEven (q * 1000000) = z := by
    unfold roundHalfEven
    dsimp only
    rw [hfl, if_pos (by linarith)]
  unfold round6
  rw [hr]

/-- C3 (amended): every hybrid/intel hit arises from a surviving
candidate and its stored `score` is the weighted component sum rounded to
six decimals (not the exact weighted sum of the stored, also-rounded,
component scores); with nonnegative weights whose sum is a multiple of
`10⁻⁶` (as the defaults `0.7/0.2/0.1` used by `query_rag` are) the score
lies between `0` and `semantic_weight + keyword_weight + threat_weight`;
the hit list is the `top_k`-truncation of the stably descending-sorted
candidate hit list, so it is sorted by score descending and ties keep
the candidates' fetch order. -/
theorem hybrid_score_spec (sanitize : List Char → List Char) (query : List Char)
    (qp : ThreatIntelProfile) (opts : QueryOptions) (cands : List Candidate)
    (hws : 0 ≤ opts.semantic_weight) (hwk : 0 ≤ opts.keyword_weight)
    (hwt : 0 ≤ opts.threat_weight) (n : ℤ)
    (hn : (opts.semantic_weight + opts.keyword_weight + opts.threat_weight) * 1000000 =
      (n : ℚ)) :
    (∀ h ∈ hybrid_rescore sanitize query qp opts cands,
      (∃ c ∈ cands, passes_filters (c.metadata.getD emptyMetadata) opts = true ∧
        h = mkHybridHit sanitize query qp opts c ∧
        h.score = round6 (normalize_semantic_score c.distance * opts.semantic_weight +
          keyword_overlap query c.document * opts.keyword_weight +
          threat_alignment qp (c.metadata.getD emptyMetadata) * opts.threat_weight)) ∧
      0 ≤ h.score ∧
      h.score ≤ opts.semantic_weight + opts.keyword_weight + opts.threat_weight) ∧
    (hybrid_rescore sanitize query qp opts cands).Pairwise
      (fun a b => b.score ≤ a.score) ∧
    (∀ s : ℚ,
      (sortHitsDesc (rescoredHits sanitize query qp opts cands)).filter
          (fun h => decide (h.score = s)) =
        (rescoredHits sanitize query qp opts cands).filter
          (fun h => decide (h.score = s))) ∧
    hybrid_rescore sanitize query qp opts cands =
      pySliceTo opts.top_k (sortHitsDesc (rescoredHits sanitize query qp opts cands)) := by
  refine ⟨?_, ?_, fun s => sortHitsDesc_filter _ s, rfl⟩
  · intro h hmem
    rcases mem_hybrid_rescore hmem with ⟨c, hc, hp, rfl⟩
    refine ⟨⟨c, hc, hp, rfl, mkHybridHit_score sanitize query qp opts c⟩, ?_, ?_⟩
    · rw [mkHybridHit_score]
      apply round6_nonneg
      have h1 := mul_nonneg (le_of_lt (normalize_semantic_score_pos c.distance)) hws
      have h2 := mul_nonneg (keyword_overlap_nonneg query c.document) hwk
      have h3 := mul_nonneg (threat_alignment_nonneg qp (c.metadata.getD emptyMetadata)) hwt
      linarith
    · rw [mkHybridHit_score]
      apply round6_le_of_le _ n hn
      have h1 := mul_le_of_le_one_left hws (normalize_semantic_score_le_one c.distance)
      have h2 := mul_le_of_le_one_left hwk (keyword_overlap_le_one query c.document)
      have h3 := mul_le_of_le_one_left hwt
        (threat_alignment_le_one qp (c.metadata.getD emptyMetadata))
      linarith
  · have hsub : (hybrid_rescore sanitize query qp opts cands).Sublist
        (sortHitsDesc (rescoredHits sanitize query qp opts cands)) := by
      unfold hybrid_rescore pySliceTo
      split <;> exact List.take_sublist _ _
    exact List.Pairwise.sublist hsub (sortHitsDesc_pairwise _)

/-- Witness for C3's amended theorem at the default weights, one
candidate at distance 2 and an empty query. -/
theorem hybrid_score_spec_witness :
    ((0 : ℚ) ≤ ({} : QueryOptions).semantic_weight ∧
      (0 : ℚ) ≤ ({} : QueryOptions).keyword_weight ∧
      (0 : ℚ) ≤ ({} : QueryOptions).threat_weight ∧
      (({} : QueryOptions).semantic_weight + ({} : QueryOptions).keyword_weight +
        ({} : QueryOptions).threat_weight) * 1000000 = ((1000000 : ℤ) : ℚ)) ∧
    ((∀ h ∈ hybrid_rescore id [] ⟨[], [], []⟩ {} [⟨['x'], 2, none, []⟩],
      (∃ c ∈ [(⟨['x'], 2, none, []⟩ : Candidate)],
        passes_filters (c.metadata.getD emptyMetadata) {} = true ∧
        h = mkHybridHit id [] ⟨[], [], []⟩ {} c ∧
        h.score = round6 (normalize_semantic_score c.distance *
            ({} : QueryOptions).semantic_weight +
          keyword_overlap [] c.document * ({} : QueryOptions).keyword_weight +
          threat_alignment ⟨[], [], []⟩ (c.metadata.getD emptyMetadata) *
            ({} : QueryOptions).threat_weight)) ∧
      0 ≤ h.score ∧
      h.score ≤ ({} : QueryOptions).semantic_weight + ({} : QueryOptions).keyword_weight +
        ({} : QueryOptions).threat_weight) ∧
    (hybrid_rescore id [] ⟨[], [], []⟩ {} [⟨['x'], 2, none, []⟩]).Pairwise
      (fun a b => b.score ≤ a.score) ∧
    (∀ s : ℚ,
      (sortHitsDesc (rescoredHits id [] ⟨[], [], []⟩ {} [⟨['x'], 2, none, []⟩])).filter
          (fun h => decide (h.score = s)) =
        (rescoredHits id [] ⟨[], [], []⟩ {} [⟨['x'], 2, none, []⟩]).filter
          (fun h => decide (h.score = s))) ∧
    hybrid_rescore id [] ⟨[], [], []⟩ {} [⟨['x'], 2, none, []⟩] =
      pySliceTo ({} : QueryOptions).top_k
        (sortHitsDesc (rescoredHits id [] ⟨[], [], []⟩ {} [⟨['x'], 2, none, []⟩]))) :=
  ⟨⟨by norm_num, by norm_num, by norm_num, by norm_num⟩,
   hybrid_score_spec id [] ⟨[], [], []⟩ {} [⟨['x'], 2, none, []⟩]
     (by norm_num) (by norm_num) (by norm_num) 1000000 (by norm_num)⟩

/-- C3 (counterexample): at distance 2 with the default weights, the
stored hit score is `round6(7/30) = 0.233333`, which is neither the
weighted sum of the stored (rounded) component scores
(`0.333333·0.7 = 0.2333331`) nor the exact weighted sum `7/30`. -/
theorem hybrid_composite_counterexample :
    ∃ h : Hit,
      hybrid_rescore id [] ⟨[], [], []⟩ {} [⟨['x'], 2, none, []⟩] = [h] ∧
      h.semantic_score = some (333333 / 1000000) ∧
      h.keyword_score = some 0 ∧
      h.threat_score = some 0 ∧
      h.score = 233333 / 1000000 ∧
      h.score ≠ h.semantic_score.getD 0 * (7 / 10) + h.keyword_score.getD 0 * (2 / 10) +
        h.threat_score.getD 0 * (1 / 10) ∧
      h.score ≠ normalize_semantic_score 2 * (7 / 10) + keyword_overlap [] [] * (2 / 10) +
        threat_alignment ⟨[], [], []⟩ emptyMetadata * (1 / 10) := by
  have hsem : normalize_semantic_score 2 = 1 / 3 := by
    unfold normalize_semantic_score
    rw [max_eq_left (by norm_num : (0 : ℚ) ≤ 2)]
    norm_num
  have hkw : keyword_overlap [] [] = 0 := rfl
  have hth : threat_alignment ⟨[], [], []⟩ emptyMetadata = 0 := rfl
  have hr3 : round6 (1 / 3) = 333333 / 1000000 := by
    have := round6_eq (1 / 3) 333333 (by norm_num) (by norm_num)
    simpa using this
  have hr30 : round6 (7 / 30) = 233333 / 1000000 := by
    have := round6_eq (7 / 30) 233333 (by norm_num) (by norm_num)
    simpa using this
  have hfin : normalize_semantic_score 2 * (7 / 10) + keyword_overlap [] [] * (2 / 10) +
      threat_alignment ⟨[], [], []⟩ emptyMetadata * (1 / 10) = 7 / 30 := by
    rw [hsem, hkw, hth]
    norm_num
  refine ⟨mkHybridHit id [] ⟨[], [], []⟩ {} ⟨['x'], 2, none, []⟩, rfl, ?_, ?_, ?_, ?_, ?_, ?_⟩
  · show some (round6 (normalize_semantic_score 2)) = some (333333 / 1000000)
    rw [hsem, hr3]
  · show some (round6 (keyword_overlap [] [])) = some 0
    rw [hkw, round6_zero]
  · show some (round6 (threat_alignment ⟨[], [], []⟩ emptyMetadata)) = some 0
    rw [hth, round6_zero]
  · rw [mkHybridHit_score]
    show round6 (normalize_semantic_score 2 * (7 / 10) + keyword_overlap [] [] * (2 / 10) +
      threat_alignment ⟨[], [], []⟩ emptyMetadata * (1 / 10)) = 233333 / 1000000
    rw [hfin, hr30]
  · rw [mkHybridHit_score]
    show round6 (normalize_semantic_score 2 * (7 / 10) + keyword_overlap [] [] * (2 / 10) +
        threat_alignment ⟨[], [], []⟩ emptyMetadata * (1 / 10)) ≠
      (some (round6 (normalize_semantic_score 2))).getD 0 * (7 / 10) +
      (some (round6 (keyword_overlap []
        (⟨['x'], 2, none, []⟩ : Candidate).document))).getD 0 * (2 / 10) +
      (some (round6 (threat_alignment ⟨[], [], []⟩
        ((⟨['x'], 2, none, []⟩ : Candidate).metadata.getD emptyMetadata)))).getD 0 * (1 / 10)
    show round6 (normalize_semantic_score 2 * (7 / 10) + keyword_overlap [] [] * (2 / 10) +
        threat_alignment ⟨[], [], []⟩ emptyMetadata * (1 / 10)) ≠
      (some (round6 (normalize_semantic_score 2))).getD 0 * (7 / 10) +
      (some (round6 (keyword_overlap [] []))).getD 0 * (2 / 10) +
      (some (round6 (threat_alignment ⟨[], [], []⟩ emptyMetadata))).getD 0 * (1 / 10)
    rw [hfin, hr30, hsem, hr3, hkw, hth, round6_zero]
    simp only [Option.getD_some]
    norm_num
  · rw [mkHybridHit_score]
    show round6 (normalize_semantic_score 2 * (7 / 10) + keyword_overlap [] [] * (2 / 10) +
        threat_alignment ⟨[], [], []⟩ emptyMetadata * (1 / 10)) ≠
      normalize_semantic_score 2 * (7 / 10) + keyword_overlap [] [] * (2 / 10) +
        threat_alignment ⟨[], [], []⟩ emptyMetadata * (1 / 10)
    rw [hfin, hr30]
    norm_num

/-- C9 (amended): a non-positive `top_k` is rejected by the HTTP layer's
request model (`Field(5, ge=1, le=20)`) before `query_rag` runs, but
`query_rag` itself performs no `top_k` validation: it returns a normal
(non-error) result — in vector mode at most one hit, because the
`len(hits) >= top_k` break fires right after the first appended hit, and
in hybrid/intel mode with `top_k = 0` an empty list from the
`rescored[:0]` slice. -/
theorem non_positive_topk_spec (sanitize : List Char → List Char) (query : List Char)
    (qp : ThreatIntelProfile) (top_k : Int) (mode : List Char)
    (doc_ids req : List (List Char)) (f : Fetched) (htk : top_k ≤ 0) :
    ragQueryRequestValid top_k mode = false ∧
    (mode = "vector".toList →
      (query_rag sanitize query qp top_k mode doc_ids req f).isOk = true ∧
      (resultsOf (query_rag sanitize query qp top_k mode doc_ids req f)).length ≤ 1) ∧
    ((mode = "hybrid".toList ∨ mode = "intel".toList) → top_k = 0 →
      (query_rag sanitize query qp top_k mode doc_ids req f).isOk = true ∧
      resultsOf (query_rag sanitize query qp top_k mode doc_ids req f) = []) := by
  refine ⟨?_, ?_, ?_⟩
  · unfold ragQueryRequestValid
    rw [decide_eq_false (by omega : ¬ (1 ≤ top_k))]
    simp
  · intro hm
    rcases query_rag_cases sanitize query qp top_k mode doc_ids req f with
      ⟨_, heq⟩ | ⟨hv, _⟩ | ⟨hv, _, _, _⟩
    · rw [heq]
      refine ⟨rfl, ?_⟩
      exact vectorLoop_length_le_one (zipCandidates f) 0 (by simpa [optsFor] using htk)
    · rcases hv with hv | hv <;> rw [hm] at hv <;> exact absurd hv (by decide)
    · exact absurd hm hv
  · intro hm htk0
    rcases query_rag_cases sanitize query qp top_k mode doc_ids req f with
      ⟨hv, _⟩ | ⟨_, heq⟩ | ⟨_, hv1, hv2, _⟩
    · rcases hm with hm | hm <;> rw [hm] at hv <;> exact absurd hv (by decide)
    · rw [heq]
      refine ⟨rfl, ?_⟩
      show hybrid_rescore sanitize query qp (optsFor top_k mode doc_ids req)
        (zipCandidates f) = []
      unfold hybrid_rescore pySliceTo
      rw [if_pos (by simp [optsFor, htk0])]
      simp [optsFor, htk0]
    · rcases hm with hm | hm
      · exact absurd hm hv1
      · exact absurd hm hv2

/-- Witness for C9's amended theorem at `top_k = 0`. -/
theorem non_positive_topk_spec_witness :
    (0 : Int) ≤ 0 ∧
    (ragQueryRequestValid 0 "vector".toList = false ∧
    ("vector".toList = "vector".toList →
      (query_rag id [] ⟨[], [], []⟩ 0 "vector".toList [] []
        ⟨[['x']], [0], [none], [[]]⟩).isOk = true ∧
      (resultsOf (query_rag id [] ⟨[], [], []⟩ 0 "vector".toList [] []
        ⟨[['x']], [0], [none], [[]]⟩)).length ≤ 1) ∧
    (("vector".toList = "hybrid".toList ∨ "vector".toList = "intel".toList) →
      (0 : Int) = 0 →
      (query_rag id [] ⟨[], [], []⟩ 0 "vector".toList [] []
        ⟨[['x']], [0], [none], [[]]⟩).isOk = true ∧
      resultsOf (query_rag id [] ⟨[], [], []⟩ 0 "vector".toList [] []
        ⟨[['x']], [0], [none], [[]]⟩) = [])) :=
  ⟨le_refl 0,
   non_positive_topk_spec id [] ⟨[], [], []⟩ 0 "vector".toList [] []
     ⟨[['x']], [0], [none], [[]]⟩ (le_refl 0)⟩

/-- C9 (counterexample): `query_rag` with `top_k = 0` in vector mode does
not fail and returns one hit, not an invalid-argument condition with no
hits: the first passing candidate is appended before the length check. -/
theorem non_positive_topk_counterexample :
    (query_rag id [] ⟨[], [], []⟩ 0 "vector".toList [] []
      ⟨[['x']], [0], [none], [[]]⟩).isOk = true ∧
    (resultsOf (query_rag id [] ⟨[], [], []⟩ 0 "vector".toList [] []
      ⟨[['x']], [0], [none], [[]]⟩)).length = 1 :=
  ⟨rfl, rfl⟩

/-- C10: a candidate with absent metadata, or with metadata missing the
`doc_id`/`threat_tags` keys, is processed as the empty metadata record
rather than failing: it passes the filters exactly when both filters are
empty (so with any filter active it is never returned, and with no
filters it is returned), and in hybrid mode its threat score is 0. -/
theorem empty_metadata_handling (sanitize : List Char → List Char) (query : List Char)
    (qp : ThreatIntelProfile) (opts : QueryOptions) (cands : List Candidate) :
    (passes_filters emptyMetadata opts = true ↔
      opts.doc_ids = [] ∧ opts.required_threat_tags = []) ∧
    threat_alignment qp emptyMetadata = 0 ∧
    (∀ h ∈ hybrid_rescore sanitize query qp opts cands, h.metadata = emptyMetadata →
      (opts.doc_ids = [] ∧ opts.required_threat_tags = []) ∧ h.threat_score = some 0) ∧
    (∀ n : Nat, ∀ h ∈ vectorLoop sanitize opts cands n, h.metadata = emptyMetadata →
      opts.doc_ids = [] ∧ opts.required_threat_tags = []) := by
  have hth0 : threat_alignment qp emptyMetadata = 0 := by
    unfold threat_alignment
    dsimp only
    split
    · rfl
    · rw [if_pos (by simp [emptyMetadata])]
  refine ⟨passes_filters_emptyMetadata opts, hth0, ?_, ?_⟩
  · intro h hmem hmd
    rcases mem_hybrid_rescore hmem with ⟨c, hc, hp, rfl⟩
    rw [mkHybridHit_metadata] at hmd
    rw [hmd] at hp
    refine ⟨(passes_filters_emptyMetadata opts).mp hp, ?_⟩
    rw [mkHybridHit_threat_score, hmd, hth0, round6_zero]
  · intro n h hmem hmd
    rcases mem_vectorLoop hmem with ⟨c, hc, hp, rfl⟩
    rw [mkVectorHit_metadata] at hmd
    rw [hmd] at hp
    exact (passes_filters_emptyMetadata opts).mp hp

/-- Witness for C10: one metadata-less candidate with no filters active. -/
theorem empty_metadata_handling_witness :
    (passes_filters emptyMetadata {} = true ↔
      ({} : QueryOptions).doc_ids = [] ∧ ({} : QueryOptions).required_threat_tags = []) ∧
    threat_alignment ⟨[], [], []⟩ emptyMetadata = 0 ∧
    (∀ h ∈ hybrid_rescore id [] ⟨[], [], []⟩ {} [⟨['x'], 0, none, []⟩],
      h.metadata = emptyMetadata →
      (({} : QueryOptions).doc_ids = [] ∧
        ({} : QueryOptions).required_threat_tags = []) ∧ h.threat_score = some 0) ∧
    (∀ n : Nat, ∀ h ∈ vectorLoop id {} [⟨['x'], 0, none, []⟩] n,
      h.metadata = emptyMetadata →
      ({} : QueryOptions).doc_ids = [] ∧ ({} : QueryOptions).required_threat_tags = []) :=
  empty_metadata_handling id [] ⟨[], [], []⟩ {} [⟨['x'], 0, none, []⟩]

/-- C8: ingestion is atomic with respect to embedding failure: the batch
embedding call happens before any upsert, so if the Embedding Provider
fails, `ingest_upload` propagates the failure and issues no upsert at
all, and on success the single upsert carries every chunk of the
document. -/
theorem ingest_atomicity (embed : List (List Char) → Except Unit (List (List ℚ)))
    (hashText sanitize : List Char → List Char)
    (extractProfile : List Char → ThreatIntelProfile) (docId text : List Char) :
    (∀ e : Unit, embed (chunksOf text) = .error e →
      ingest_upload embed hashText sanitize extractProfile docId text = .error e) ∧
    (∀ up s, ingest_upload embed hashText sanitize extractProfile docId text = .ok (up, s) →
      embed (chunksOf text) = .ok up.embeddings ∧
      up.documents = chunksOf text ∧
      up.ids = (List.range (chunksOf text).length).map (chunkId docId) ∧
      up.metadatas.length = (chunksOf text).length ∧
      s.chunks = (chunksOf text).length) := by
  constructor
  · intro e he
    unfold ingest_upload
    dsimp only
    rw [he]
  · intro up s hok
    unfold ingest_upload at hok
    dsimp only at hok
    cases hemb : embed (chunksOf text) with
    | error e =>
      rw [hemb] at hok
      exact absurd hok (by simp)
    | ok embeddings =>
      rw [hemb] at hok
      have hpair := Except.ok.inj hok
      have h1 : up = ⟨(List.range (chunksOf text).length).map (chunkId docId), embeddings,
          chunksOf text, (chunksOf text).enum.map
            (fun ic => build_metadata hashText sanitize extractProfile docId ic.2 ic.1)⟩ :=
        (congrArg Prod.fst hpair).symm
      have h2 : s = ⟨(chunksOf text).length, docId, hashText text,
          (extractProfile text).tags, (extractProfile text).tactics,
          (extractProfile text).indicators⟩ :=
        (congrArg Prod.snd hpair).symm
      subst h1
      subst h2
      refine ⟨rfl, rfl, rfl, ?_, rfl⟩
      simp [List.enum_length]

/-- Witness for C8: a provider that always fails makes `ingest_upload`
fail without producing an upsert. -/
theorem ingest_atomicity_witness :
    ingest_upload (fun _ => .error ()) (fun h => h) (fun h => h)
      (fun _ => ⟨[], [], []⟩) [] ['a'] = .error () :=
  (ingest_atomicity (fun _ => .error ()) (fun h => h) (fun h => h)
    (fun _ => ⟨[], [], []⟩) [] ['a']).1 () rfl

end IronDillo
